import Mathlib

/-!
# Verification of the Telepresence k8s-proxy DNS resolver

A shallow embedding of `k8s-proxy/resolver.py` (the `LocalResolver` class and
its helper `insort`).  DNS names are modelled as lists of characters (the raw
bytes of the Python byte strings); the two upstream resolver clients and the
native `socket.gethostbyname_ex` call are modelled as oracle functions supplied
in an environment, and every upstream interaction is recorded in a call log so
that routing claims can be stated precisely.  The mutable suffix list of the
Python object is threaded explicitly through the resolution function.
-/

/-- A DNS name: the characters of the raw byte string used by the Python code. -/
abbrev DName := List Char

/-- Convert a string literal to a `DName`. -/
def nm (s : String) : DName := s.toList

/-- Python `bytes.split(sep)` for a single-character separator: splits into the
(always non-empty) list of chunks between occurrences of `sep`. -/
def splitOnChar (sep : Char) : List Char → List (List Char)
  | [] => [[]]
  | c :: rest =>
    match splitOnChar sep rest with
    | [] => [[]]
    | p :: ps => if c = sep then [] :: p :: ps else (c :: p) :: ps

/-- Python `name.split(b".")`. -/
def splitOnDot (s : DName) : List DName := splitOnChar '.' s

/-- Python `b".".join(parts)`. -/
def joinDots : List DName → DName
  | [] => []
  | [p] => p
  | p :: q :: ps => p ++ '.' :: joinDots (q :: ps)

/-- Python `sub in s` for byte strings: `sub` occurs contiguously inside `s`. -/
def containsSeq (sub s : List Char) : Bool :=
  (List.tails s).any (fun t => sub.isPrefixOf t)

/-! ## Data model -/

/-- DNS record types distinguished by `LocalResolver.query`. -/
inductive QType where
  | A
  | AAAA
  | other
deriving DecidableEq

/-- A parsed DNS query (`dns.Query`): a name and a record type. -/
structure Query where
  name : DName
  qtype : QType
deriving DecidableEq

/-- A resource record in an answer (`dns.RRHeader` restricted to the fields the
resolver manipulates: owner name, record type, and the payload address). -/
structure RR where
  name : DName
  rtype : QType
  address : String
deriving DecidableEq

/-- Errors surfaced by the resolver.  `fuelExhausted` marks exhaustion of the
recursion bound of the embedding (the Python code recurses without a bound). -/
inductive DNSError where
  | domainError (msg : String)
  | authoritativeDomainError (msg : String)
  | fuelExhausted
deriving DecidableEq

/-- A timeout duration.  The code only ever uses whole seconds (`1`) and the
tenth of a second `0.1`, so durations are kept symbolic. -/
inductive Duration where
  | secs (n : Nat)
  | tenth
deriving DecidableEq

/-- The `timeout` arguments the Python code passes around: `None`, the tuple
`(1, 1)` used for suffix-strip recursion, or a list such as `[0.1]`. -/
inductive Timeout where
  | unset
  | pair (a b : Duration)
  | list (ts : List Duration)
deriving DecidableEq

/-- One upstream interaction, for the call log. -/
inductive UpstreamCall where
  | kube (q : Query) (t : Timeout)
  | fallback (q : Query) (t : Timeout)
  | native (name : DName)
deriving DecidableEq

/-- The environment of external collaborators: the cluster (Kube DNS) resolver
client, the fallback resolver client, and the native `resolve` call
(`socket.gethostbyname_ex`), each an oracle returning answers or an error. -/
structure Env where
  kube : Query → Timeout → Except DNSError (List RR)
  fallback : Query → Timeout → Except DNSError (List RR)
  native : DName → Except String (List String)

/-- Construction-time configuration of `LocalResolver`. -/
structure Config where
  noloop : Bool
  nspace : DName
  localNames : List DName

/-- `LocalResolver.__init__`: split the comma-separated
`telepresence_local_names` into `self.local_names` (empty input gives `[]`). -/
def localNamesOf (s : DName) : List DName :=
  if s = [] then [] else splitOnChar ',' s

instance {ε α : Type} [DecidableEq ε] [DecidableEq α] : DecidableEq (Except ε α) :=
  fun a b =>
    match a, b with
    | .ok x, .ok y => decidable_of_iff (x = y) (by simp)
    | .error x, .error y => decidable_of_iff (x = y) (by simp)
    | .ok _, .error _ => isFalse (by simp)
    | .error _, .ok _ => isFalse (by simp)

/-- The result of one call to `LocalResolver.query`: the answer or error, the
suffix list after the call (Python mutates `self.suffixes`), and the log of
upstream calls made. -/
structure QueryOut where
  result : Except DNSError (List RR)
  suffixes : List (List DName)
  calls : List UpstreamCall
deriving DecidableEq

/-! ## The resolver, translated from `k8s-proxy/resolver.py` -/

/-- `insort(target_list, new_element, key)`: insert `x` into an
already-sorted list before the first element whose key is strictly
greater than `x`'s key (appending when there is none). -/
def insort {α : Type} (target : List α) (x : α) (key : α → Int) : List α :=
  match target with
  | [] => [x]
  | y :: ys => if key y > key x then x :: y :: ys else y :: insort ys x key

/-- `LocalResolver._got_ips`: build the answer records for a list of IPs
(`record_type` is always `dns.Record_A` at the call sites). -/
def gotIps (name : DName) (ips : List String) : List RR :=
  ips.map (fun ip => { name := name, rtype := QType.A, address := ip })

/-- The test of `LocalResolver._identify_sanity_check`:
`real_name.startswith(b"hellotelepresence") and
real_name.endswith(b"telepresence.io")`. -/
def sanityCheckHit (realName : DName) : Bool :=
  (nm "hellotelepresence").isPrefixOf realName
    && (nm "telepresence.io").isSuffixOf realName

/-- The test of `LocalResolver._identify_suffix_probe`:
`parts[0].startswith(b"hellotelepresence")`. -/
def suffixProbeHit (parts : List DName) : Bool :=
  (nm "hellotelepresence").isPrefixOf (parts.headD [])

/-- The sort key used when learning suffixes: `lambda parts: -len(parts)`. -/
def suffixKey (p : List DName) : Int := -(p.length : Int)

/-- The suffix-learning step of `LocalResolver._identify_suffix_probe`:
`if suffix not in self.suffixes: insort(self.suffixes, suffix, -len)`. -/
def considerSuffix (suffixes : List (List DName)) (s : List DName) :
    List (List DName) :=
  if s ∈ suffixes then suffixes else insort suffixes s suffixKey

/-- Python `parts[-n:]` (for `n = 0` this is `parts[0:]`, the whole list). -/
def pyTail (parts : List DName) (n : Nat) : List DName :=
  if n = 0 then parts else parts.drop (parts.length - n)

/-- Python `parts[:-n]` (for `n = 0` this is `parts[:0]`, the empty list). -/
def pyDropLast (parts : List DName) (n : Nat) : List DName :=
  if n = 0 then [] else parts.take (parts.length - n)

/-- `LocalResolver._strip_search_suffix`: scan the suffix list in order and
drop the first matching trailing suffix, returning the input otherwise. -/
def stripSearchSuffix (suffixes : List (List DName)) (parts : List DName) :
    List DName :=
  match suffixes with
  | [] => parts
  | s :: rest =>
    if pyTail parts s.length = s then pyDropLast parts s.length
    else stripSearchSuffix rest parts

/-- The cluster-safety test at lines 276–281 of `LocalResolver.query`:
`query.name.name.count(b".") in (0, 1) or query.name.name.endswith(b".local")
or b".svc" in query.name.name or query.name.name in self.local_names or
any(query.name.name.endswith(b"." + name) for name in self.local_names)`. -/
def clusterSafe (localNames : List DName) (name : DName) : Bool :=
  (name.count '.' == 0 || name.count '.' == 1)
    || (nm ".local").isSuffixOf name
    || containsSeq (nm ".svc") name
    || localNames.contains name
    || localNames.any (fun n => ('.' :: n).isSuffixOf name)

/-- The Kubernetes name completion performed at the start of
`LocalResolver._no_loop_kube_query` on the deep copy of the query. -/
def kubeRewrite (nspace : DName) (name : DName) : DName :=
  if (nm ".local").isSuffixOf name then name
  else
    let parts0 := splitOnDot name
    let parts := if parts0.length = 1 then parts0 ++ [nspace] else parts0
    if parts.length = 2 then joinDots parts ++ nm ".svc.cluster.local"
    else if parts.getLastD [] = nm "svc" then joinDots (parts ++ [nm "cluster.local"])
    else name

/-- The short timeout `[0.1]` used for the Kube DNS query. -/
def kubeShortTimeout : Timeout := Timeout.list [Duration.tenth]

/-- `LocalResolver._no_loop_kube_query`: query Kube DNS with the rewritten
query and the short timeout; on success rename every answer to `real_name`
(the `fix_names` callback); on any failure ask the fallback resolver with the
original query and the caller's timeout. -/
def noLoopKubeQuery (env : Env) (cfg : Config) (q : Query) (timeout : Timeout)
    (realName : DName) : Except DNSError (List RR) × List UpstreamCall :=
  let newQuery : Query := { q with name := kubeRewrite cfg.nspace q.name }
  match env.kube newQuery kubeShortTimeout with
  | .ok result =>
    (.ok (result.map (fun a => { a with name := realName })),
     [.kube newQuery kubeShortTimeout])
  | .error _ =>
    (env.fallback q timeout,
     [.kube newQuery kubeShortTimeout, .fallback q timeout])

/-- `LocalResolver.query`, with an explicit recursion bound `fuel` (the Python
code recurses on itself for suffix stripping and for the AAAA→A rewrite). -/
def queryFuel (env : Env) (cfg : Config) :
    Nat → List (List DName) → Query → Timeout → Option DName → QueryOut
  | 0, suffixes, _, _, _ =>
    ⟨.error .fuelExhausted, suffixes, []⟩
  | fuel + 1, suffixes, q, timeout, realName? =>
    -- real_name = query.name.name when not supplied
    let realName := realName?.getD q.name
    let parts := splitOnDot q.name
    if sanityCheckHit realName then
      -- _identify_sanity_check: defer.fail(error.AuthoritativeDomainError(...))
      ⟨.error (.authoritativeDomainError "Sanity check"), suffixes, []⟩
    else if suffixProbeHit parts then
      -- _identify_suffix_probe: learn tuple(parts[1:]), answer 127.0.0.1
      ⟨.ok (gotIps realName ["127.0.0.1"]), considerSuffix suffixes parts.tail, []⟩
    else
      let stem := stripSearchSuffix suffixes parts
      if stem ≠ parts then
        -- _handle_search_suffix: re-resolve the stripped name with
        -- timeout=(1, 1) and real_name=query.name.name; on failure fall back
        -- to the fallback resolver with the original query.
        let inner := queryFuel env cfg fuel suffixes { q with name := joinDots stem }
          (Timeout.pair (.secs 1) (.secs 1)) (some q.name)
        match inner.result with
        | .ok _ => inner
        | .error _ =>
          ⟨env.fallback q timeout, inner.suffixes,
           inner.calls ++ [.fallback q timeout]⟩
      else
        match q.qtype with
        | .A =>
          if cfg.noloop then
            if clusterSafe cfg.localNames q.name then
              let r := noLoopKubeQuery env cfg q timeout realName
              ⟨r.1, suffixes, r.2⟩
            else
              ⟨env.fallback q timeout, suffixes, [.fallback q timeout]⟩
          else
            -- deferToThread(resolve, ...) → _got_ips / _got_error
            match env.native q.name with
            | .ok ips => ⟨.ok (gotIps realName ips), suffixes, [.native q.name]⟩
            | .error msg => ⟨.error (.domainError msg), suffixes, [.native q.name]⟩
        | .AAAA =>
          -- query.type = dns.A; self.query(query, timeout, real_name)
          queryFuel env cfg fuel suffixes { q with qtype := .A } timeout (some realName)
        | .other =>
          ⟨env.fallback q timeout, suffixes, [.fallback q timeout]⟩

/-! ## Concrete environments and configurations used in concrete runs -/

/-- A tunnel-mode (`noloop`) configuration: namespace `default`, no
configured local names. -/
def cfgTunnel : Config :=
  { noloop := true, nspace := nm "default", localNames := [] }

/-- An environment whose cluster resolver answers every query with one record
under the queried name, and whose fallback does the same (both well-behaved). -/
def envKubeOk : Env :=
  { kube := fun q _ => .ok [⟨q.name, q.qtype, "10.0.0.1"⟩],
    fallback := fun q _ => .ok [⟨q.name, q.qtype, "1.2.3.4"⟩],
    native := fun _ => .error "gaierror" }

/-- An environment whose cluster resolver always fails (e.g. times out) and
whose fallback answers every query with one record under the queried name. -/
def envKubeDown : Env :=
  { kube := fun _ _ => .error (.domainError "timeout"),
    fallback := fun q _ => .ok [⟨q.name, q.qtype, "1.2.3.4"⟩],
    native := fun _ => .error "gaierror" }

/-- Classifier for fallback-resolver events in a call log. -/
def isFallbackCall : UpstreamCall → Bool
  | .fallback _ _ => true
  | _ => false

/-- Classifier for cluster-resolver (Kube DNS) events in a call log. -/
def isKubeCall : UpstreamCall → Bool
  | .kube _ _ => true
  | _ => false

/-- An environment where the cluster resolver and the fallback resolver both
fail on every query. -/
def envAllFail : Env :=
  { kube := fun _ _ => .error (.domainError "timeout"),
    fallback := fun _ _ => .error (.domainError "fallback dead"),
    native := fun _ => .error "gaierror" }

/-- An environment whose fallback resolver is type-sensitive: it answers AAAA
queries with one AAAA record under the queried name and fails A queries; the
cluster resolver always fails.  (A legal resolver: it never returns an AAAA
record for an A-type query.) -/
def envTypeSensitive : Env :=
  { kube := fun _ _ => .error (.domainError "timeout"),
    fallback := fun q _ =>
      match q.qtype with
      | .AAAA => .ok [⟨q.name, .AAAA, "::1"⟩]
      | _ => .error (.domainError "no A answer"),
    native := fun _ => .error "gaierror" }

/-! ## Basic lemmas about the name primitives -/

theorem splitOnChar_ne_nil (sep : Char) (s : List Char) : splitOnChar sep s ≠ [] := by
  cases s with
  | nil => simp [splitOnChar]
  | cons c rest =>
    simp only [splitOnChar]
    cases h : splitOnChar sep rest with
    | nil => simp
    | cons p ps =>
      by_cases hc : c = sep <;> simp [hc]

theorem joinDots_splitOnDot (s : DName) : joinDots (splitOnDot s) = s := by
  induction s with
  | nil => rfl
  | cons c rest ih =>
    simp only [splitOnDot, splitOnChar] at *
    cases h : splitOnChar '.' rest with
    | nil => exact absurd h (splitOnChar_ne_nil '.' rest)
    | cons p ps =>
      rw [h] at ih
      by_cases hc : c = '.'
      · subst hc
        simp only [if_pos rfl]
        cases ps with
        | nil => simpa [joinDots] using ih
        | cons q qs => simpa [joinDots] using ih
      · simp only [if_neg hc]
        cases ps with
        | nil => simpa [joinDots] using ih
        | cons q qs => simpa [joinDots] using ih

theorem joinDots_append_single (ps : List DName) (c : DName) (h : ps ≠ []) :
    joinDots (ps ++ [c]) = joinDots ps ++ '.' :: c := by
  induction ps with
  | nil => exact absurd rfl h
  | cons p rest ih =>
    cases rest with
    | nil => simp [joinDots]
    | cons q qs =>
      have h2 := ih (by simp)
      simp only [List.cons_append, joinDots, List.append_eq] at h2 ⊢
      rw [h2]
      simp

theorem containsSeq_iff (sub s : List Char) : containsSeq sub s = true ↔ sub <:+: s := by
  constructor
  · intro h
    simp only [containsSeq, List.any_eq_true] at h
    obtain ⟨t, ht, hp⟩ := h
    exact List.infix_iff_prefix_suffix.2
      ⟨t, by simpa using hp, (List.mem_tails _ _).1 ht⟩
  · intro h
    obtain ⟨t, hp, hs⟩ := List.infix_iff_prefix_suffix.1 h
    simp only [containsSeq, List.any_eq_true]
    exact ⟨t, (List.mem_tails _ _).2 hs, by simpa using hp⟩


/-! ## Lemmas about `insort` and the suffix list -/

theorem insort_perm {α : Type} (l : List α) (x : α) (key : α → Int) :
    List.Perm (insort l x key) (x :: l) := by
  induction l with
  | nil => rfl
  | cons y ys ih =>
    simp only [insort]
    by_cases h : key y > key x
    · rw [if_pos h]
    · rw [if_neg h]
      exact (ih.cons y).trans (List.Perm.swap x y ys)

theorem mem_insort {α : Type} (l : List α) (x : α) (key : α → Int) :
    x ∈ insort l x key :=
  (insort_perm l x key).mem_iff.2 (List.mem_cons_self x l)

theorem insort_sorted {α : Type} (l : List α) (x : α) (key : α → Int)
    (h : l.Pairwise (fun a b => key a ≤ key b)) :
    (insort l x key).Pairwise (fun a b => key a ≤ key b) := by
  induction l with
  | nil => simp [insort, List.pairwise_cons]
  | cons y ys ih =>
    rcases List.pairwise_cons.1 h with ⟨hy, hys⟩
    simp only [insort]
    by_cases hk : key y > key x
    · rw [if_pos hk]
      refine List.pairwise_cons.2 ⟨?_, h⟩
      intro z hz
      rcases List.mem_cons.1 hz with rfl | hz'
      · exact le_of_lt hk
      · exact le_trans (le_of_lt hk) (hy z hz')
    · rw [if_neg hk]
      refine List.pairwise_cons.2 ⟨?_, ih hys⟩
      intro z hz
      rcases List.mem_cons.1 ((insort_perm ys x key).mem_iff.1 hz) with rfl | hz'
      · exact not_lt.1 hk
      · exact hy z hz'

theorem insort_suffixKey_split (l : List (List DName)) (s : List DName) :
    insort l s suffixKey =
      l.takeWhile (fun y => decide (s.length ≤ y.length)) ++
        s :: l.dropWhile (fun y => decide (s.length ≤ y.length)) := by
  induction l with
  | nil => simp [insort]
  | cons y ys ih =>
    have hkey : (suffixKey y > suffixKey s) ↔ y.length < s.length := by
      simp only [suffixKey, gt_iff_lt, neg_lt_neg_iff, Nat.cast_lt]
    simp only [insort]
    by_cases hk : suffixKey y > suffixKey s
    · have hlt : y.length < s.length := hkey.1 hk
      rw [if_pos hk]
      have hd : (decide (s.length ≤ y.length)) = false := by
        simp [not_le.2 hlt]
      simp [List.takeWhile_cons, List.dropWhile_cons, hd]
    · have hle : s.length ≤ y.length := not_lt.1 (fun hn => hk (hkey.2 hn))
      rw [if_neg hk]
      have hd : (decide (s.length ≤ y.length)) = true := by simp [hle]
      simp [List.takeWhile_cons, List.dropWhile_cons, hd, ih]

theorem considerSuffix_mem (l : List (List DName)) (s : List DName) :
    s ∈ considerSuffix l s := by
  unfold considerSuffix
  by_cases h : s ∈ l
  · rw [if_pos h]; exact h
  · rw [if_neg h]; exact mem_insort l s suffixKey

theorem considerSuffix_of_mem (l : List (List DName)) (s : List DName)
    (h : s ∈ l) : considerSuffix l s = l := by
  simp [considerSuffix, h]

/-- The invariant of the suffix list: sorted with longest suffixes first, and
without duplicates. -/
def SuffixInvariant (l : List (List DName)) : Prop :=
  l.Pairwise (fun a b => b.length ≤ a.length) ∧ l.Nodup

theorem considerSuffix_invariant (l : List (List DName)) (s : List DName)
    (h : SuffixInvariant l) : SuffixInvariant (considerSuffix l s) := by
  obtain ⟨hsort, hnd⟩ := h
  unfold considerSuffix
  by_cases hm : s ∈ l
  · rw [if_pos hm]; exact ⟨hsort, hnd⟩
  · rw [if_neg hm]
    constructor
    · have hs : l.Pairwise (fun a b => suffixKey a ≤ suffixKey b) := by
        refine hsort.imp ?_
        intro a b hab
        simpa only [suffixKey, neg_le_neg_iff, Nat.cast_le] using hab
      have h2 := insort_sorted l s suffixKey hs
      refine h2.imp ?_
      intro a b hab
      simpa only [suffixKey, neg_le_neg_iff, Nat.cast_le] using hab
    · exact ((insort_perm l s suffixKey).nodup_iff).2 (List.nodup_cons.2 ⟨hm, hnd⟩)

theorem foldl_considerSuffix_invariant (arrivals : List (List DName))
    (init : List (List DName)) (h : SuffixInvariant init) :
    SuffixInvariant (arrivals.foldl considerSuffix init) := by
  induction arrivals generalizing init with
  | nil => exact h
  | cons a rest ih => exact ih _ (considerSuffix_invariant init a h)

/-! ## Lemmas about suffix stripping and the loop guard -/

theorem stripSearchSuffix_nil (parts : List DName) :
    stripSearchSuffix [] parts = parts := rfl

theorem stripSearchSuffix_of_mem_sorted (suffixes : List (List DName))
    (parts : List DName)
    (hs : suffixes.Pairwise (fun a b => b.length ≤ a.length))
    (hm : parts ∈ suffixes) (hp : parts ≠ []) :
    stripSearchSuffix suffixes parts = [] := by
  induction suffixes with
  | nil => cases hm
  | cons s rest ih =>
    rcases List.pairwise_cons.1 hs with ⟨hhead, hrest⟩
    simp only [stripSearchSuffix]
    by_cases hmatch : pyTail parts s.length = s
    · rw [if_pos hmatch]
      have hge : parts.length ≤ s.length := by
        rcases List.mem_cons.1 hm with rfl | hmem
        · exact le_refl _
        · exact hhead parts hmem
      unfold pyDropLast
      by_cases h0 : s.length = 0
      · rw [if_pos h0]
      · rw [if_neg h0, Nat.sub_eq_zero_of_le hge, List.take_zero]
    · rw [if_neg hmatch]
      rcases List.mem_cons.1 hm with rfl | hmem
      · exfalso
        apply hmatch
        have h0 : parts.length ≠ 0 := by
          simpa [List.length_eq_zero] using hp
        simp [pyTail, h0]
      · exact ih hrest hmem

theorem clusterSafe_iff (locals : List DName) (name : DName) :
    clusterSafe locals name = true ↔
      (name.count '.' = 0 ∨ name.count '.' = 1
        ∨ nm ".local" <:+ name
        ∨ nm ".svc" <:+: name
        ∨ name ∈ locals
        ∨ ∃ m ∈ locals, ('.' :: m) <:+ name) := by
  simp [clusterSafe, containsSeq_iff, List.any_eq_true, or_assoc]

/-! ## Claim theorems -/

/-- C9: for every query whose real name starts with `hellotelepresence` and
ends with `telepresence.io`, the resolver fails immediately with the
authoritative `Sanity check` error, learns no suffix, and makes no upstream
call at all. -/
theorem C9_sanity_check (env : Env) (cfg : Config) (fuel : Nat)
    (suffixes : List (List DName)) (q : Query) (t : Timeout) (rn : Option DName)
    (hpre : (nm "hellotelepresence").isPrefixOf (rn.getD q.name) = true)
    (hsuf : (nm "telepresence.io").isSuffixOf (rn.getD q.name) = true) :
    queryFuel env cfg (fuel + 1) suffixes q t rn =
      ⟨.error (.authoritativeDomainError "Sanity check"), suffixes, []⟩ := by
  have hs : sanityCheckHit (rn.getD q.name) = true := by
    simp [sanityCheckHit, hpre, hsuf]
  simp [queryFuel, hs]

/-- Witness for C9 at the query name
`hellotelepresence123.telepresence.io`. -/
theorem C9_sanity_check_witness :
    queryFuel envKubeOk cfgTunnel 3 []
        ⟨nm "hellotelepresence123.telepresence.io", .A⟩ .unset none =
      ⟨.error (.authoritativeDomainError "Sanity check"), [], []⟩ :=
  C9_sanity_check envKubeOk cfgTunnel 2 []
    ⟨nm "hellotelepresence123.telepresence.io", .A⟩ .unset none
    (by decide) (by decide)

/-- C8: for every query whose first label starts with `hellotelepresence`
and whose real name does not match the sanity-check pattern, the resolver
stores the remaining labels as a suffix (a no-op when already known, and in
any case the suffix is in the stored list afterwards) and answers immediately
with the single A record `127.0.0.1` under the real name, making no upstream
call. -/
theorem C8_suffix_probe (env : Env) (cfg : Config) (fuel : Nat)
    (suffixes : List (List DName)) (q : Query) (t : Timeout) (rn : Option DName)
    (hsan : sanityCheckHit (rn.getD q.name) = false)
    (hprobe : suffixProbeHit (splitOnDot q.name) = true) :
    queryFuel env cfg (fuel + 1) suffixes q t rn =
      ⟨.ok [⟨rn.getD q.name, .A, "127.0.0.1"⟩],
       considerSuffix suffixes (splitOnDot q.name).tail, []⟩
    ∧ (splitOnDot q.name).tail ∈ considerSuffix suffixes (splitOnDot q.name).tail := by
  refine ⟨?_, considerSuffix_mem _ _⟩
  simp [queryFuel, hsan, hprobe, gotIps]

/-- Witness for C8: a probe query for `hellotelepresenceABC.corp.example`
records the suffix `("corp", "example")` and is answered with `127.0.0.1`
under the probed name, with no upstream call. -/
theorem C8_suffix_probe_witness :
    queryFuel envKubeOk cfgTunnel 3 []
        ⟨nm "hellotelepresenceABC.corp.example", .A⟩ .unset none =
      ⟨.ok [⟨nm "hellotelepresenceABC.corp.example", .A, "127.0.0.1"⟩],
       [[nm "corp", nm "example"]], []⟩
    ∧ [nm "corp", nm "example"] ∈ ([[nm "corp", nm "example"]] : List (List DName)) := by
  have h := C8_suffix_probe envKubeOk cfgTunnel 2 []
    ⟨nm "hellotelepresenceABC.corp.example", .A⟩ .unset none
    (by decide) (by decide)
  exact ⟨h.1, by decide⟩

/-- C4: in tunnel (`noloop`) mode, for a cluster-safe A query that is not
a sanity check, not a probe, and not subject to suffix stripping, a failure of
the cluster-resolver query (issued with the short `[0.1]` timeout) leads to
exactly one fallback-resolver call, made with the original query (not the
Kubernetes-rewritten one) and the caller's timeout. -/
theorem C4_cluster_failure_fallback (env : Env) (cfg : Config) (fuel : Nat)
    (suffixes : List (List DName)) (qn : DName) (t : Timeout) (e : DNSError)
    (hnl : cfg.noloop = true)
    (hsafe : clusterSafe cfg.localNames qn = true)
    (hsan : sanityCheckHit qn = false)
    (hprobe : suffixProbeHit (splitOnDot qn) = false)
    (hstrip : stripSearchSuffix suffixes (splitOnDot qn) = splitOnDot qn)
    (hkube : env.kube ⟨kubeRewrite cfg.nspace qn, .A⟩ kubeShortTimeout = .error e) :
    queryFuel env cfg (fuel + 1) suffixes ⟨qn, .A⟩ t none =
      ⟨env.fallback ⟨qn, .A⟩ t, suffixes,
       [.kube ⟨kubeRewrite cfg.nspace qn, .A⟩ kubeShortTimeout,
        .fallback ⟨qn, .A⟩ t]⟩
    ∧ ((queryFuel env cfg (fuel + 1) suffixes ⟨qn, .A⟩ t none).calls.countP
        isFallbackCall) = 1 := by
  have h1 : queryFuel env cfg (fuel + 1) suffixes ⟨qn, .A⟩ t none =
      ⟨env.fallback ⟨qn, .A⟩ t, suffixes,
       [.kube ⟨kubeRewrite cfg.nspace qn, .A⟩ kubeShortTimeout,
        .fallback ⟨qn, .A⟩ t]⟩ := by
    simp [queryFuel, hsan, hprobe, hstrip, hnl, hsafe, noLoopKubeQuery, hkube]
  refine ⟨h1, ?_⟩
  rw [h1]
  simp [List.countP, List.countP.go, isFallbackCall]

/-- Witness for C4: with a failing cluster resolver, the cluster-safe name
`kubernetes` results in one fallback call carrying the original query. -/
theorem C4_cluster_failure_fallback_witness :
    queryFuel envKubeDown cfgTunnel 3 [] ⟨nm "kubernetes", .A⟩ .unset none =
      ⟨envKubeDown.fallback ⟨nm "kubernetes", .A⟩ .unset, [],
       [.kube ⟨nm "kubernetes.default.svc.cluster.local", .A⟩ kubeShortTimeout,
        .fallback ⟨nm "kubernetes", .A⟩ .unset]⟩ :=
  (C4_cluster_failure_fallback envKubeDown cfgTunnel 2 [] (nm "kubernetes")
    .unset (.domainError "timeout") rfl (by decide) (by decide) (by decide) rfl
    rfl).1

/-- C10: for a (non-sanity, non-probe) query whose full label sequence is
one of the learned suffixes (the list being sorted longest-first, as learning
maintains), stripping returns the empty label list — not the name unchanged,
the label list of a name never being empty — so the resolver re-resolves the
empty name (the dot-join of no labels) with timeout pair `(1, 1)` and the
original name as real name, and falls back to the fallback resolver with the
original query if that recursive resolution fails. -/
theorem C10_whole_name_is_suffix (env : Env) (cfg : Config) (fuel : Nat)
    (suffixes : List (List DName)) (q : Query) (t : Timeout)
    (hs : suffixes.Pairwise (fun a b => b.length ≤ a.length))
    (hm : splitOnDot q.name ∈ suffixes)
    (hsan : sanityCheckHit q.name = false)
    (hprobe : suffixProbeHit (splitOnDot q.name) = false) :
    stripSearchSuffix suffixes (splitOnDot q.name) = []
    ∧ splitOnDot q.name ≠ []
    ∧ queryFuel env cfg (fuel + 1) suffixes q t none =
        (let inner := queryFuel env cfg fuel suffixes { q with name := joinDots [] }
          (Timeout.pair (.secs 1) (.secs 1)) (some q.name)
         match inner.result with
         | .ok _ => inner
         | .error _ =>
             ⟨env.fallback q t, inner.suffixes, inner.calls ++ [.fallback q t]⟩) := by
  have hparts : splitOnDot q.name ≠ [] := splitOnChar_ne_nil '.' q.name
  have hstrip : stripSearchSuffix suffixes (splitOnDot q.name) = [] :=
    stripSearchSuffix_of_mem_sorted _ _ hs hm hparts
  refine ⟨hstrip, hparts, ?_⟩
  simp only [queryFuel, Option.getD, hsan, Bool.false_eq_true, if_false, hprobe,
    hstrip]
  rw [if_pos (Ne.symm hparts)]

/-- Witness for C10: with learned suffix `("corp", "example")` and a dead
cluster resolver, the query `corp.example` is stripped to the empty name; the
inner resolution succeeds through the inner fallback call for the empty name. -/
theorem C10_whole_name_is_suffix_witness :
    stripSearchSuffix [[nm "corp", nm "example"]]
        (splitOnDot (nm "corp.example")) = []
    ∧ queryFuel envKubeDown cfgTunnel 4 [[nm "corp", nm "example"]]
        ⟨nm "corp.example", .A⟩ .unset none =
      ⟨.ok [⟨[], .A, "1.2.3.4"⟩], [[nm "corp", nm "example"]],
       [.kube ⟨nm ".default.svc.cluster.local", .A⟩ kubeShortTimeout,
        .fallback ⟨[], .A⟩ (Timeout.pair (.secs 1) (.secs 1))]⟩ := by
  have h := C10_whole_name_is_suffix envKubeDown cfgTunnel 3
    [[nm "corp", nm "example"]] ⟨nm "corp.example", .A⟩ .unset
    (by decide) (by decide) (by decide) (by decide)
  exact ⟨h.1, by rw [h.2.2]; decide⟩

theorem noLoopKubeQuery_calls_head (env : Env) (cfg : Config) (q : Query)
    (t : Timeout) (real : DName) :
    (noLoopKubeQuery env cfg q t real).2.head? =
      some (.kube { q with name := kubeRewrite cfg.nspace q.name }
        kubeShortTimeout) := by
  unfold noLoopKubeQuery
  cases h : env.kube { q with name := kubeRewrite cfg.nspace q.name } kubeShortTimeout
    <;> simp [h]

/-- C1 counterexample: the claim fails as stated.  `google.com` contains a
single dot, so the loop guard deems it cluster-safe and the engine sends it to
the cluster resolver (here the cluster answer succeeds, so the call log is
exactly one cluster call).  Moreover the `.svc` test of the code is a
substring test, not a label test: `a.svcx.b` has two dots, no `svc` label and
no `.local` ending, yet is deemed cluster-safe. -/
theorem C1_loop_guard_counterexample :
    clusterSafe [] (nm "google.com") = true
    ∧ (queryFuel envKubeOk cfgTunnel 2 [] ⟨nm "google.com", .A⟩ .unset none).calls
        = [.kube ⟨nm "google.com.svc.cluster.local", .A⟩ kubeShortTimeout]
    ∧ clusterSafe [] (nm "a.svcx.b") = true
    ∧ (nm "a.svcx.b").count '.' = 2
    ∧ ((splitOnDot (nm "a.svcx.b")).contains (nm "svc")) = false
    ∧ ((nm ".local").isSuffixOf (nm "a.svcx.b")) = false := by
  decide

/-- C1 amended: a name is cluster-safe exactly when it has 0 or 1 dot, or
ends in `.local`, or contains `.svc` as a substring (not necessarily as a
whole label), or exactly matches a configured local name, or ends with a dot
followed by a configured local name.  Hence in tunnel mode the two-dot name
`www.google.com` is routed to the fallback resolver and never to the cluster
resolver, while `google.com` (one dot), `kubernetes` and `foo.svc` are sent
to the cluster resolver first. -/
theorem C1_loop_guard_amended :
    (∀ (locals : List DName) (name : DName),
        clusterSafe locals name = true ↔
          (name.count '.' = 0 ∨ name.count '.' = 1
            ∨ nm ".local" <:+ name
            ∨ nm ".svc" <:+: name
            ∨ name ∈ locals
            ∨ ∃ m ∈ locals, ('.' :: m) <:+ name))
    ∧ (∀ (env : Env) (t : Timeout) (fuel : Nat),
        queryFuel env cfgTunnel (fuel + 1) [] ⟨nm "www.google.com", .A⟩ t none =
          ⟨env.fallback ⟨nm "www.google.com", .A⟩ t, [],
           [.fallback ⟨nm "www.google.com", .A⟩ t]⟩)
    ∧ (∀ (env : Env) (t : Timeout) (fuel : Nat),
        (queryFuel env cfgTunnel (fuel + 1) [] ⟨nm "google.com", .A⟩ t
            none).calls.head?
          = some (.kube ⟨nm "google.com.svc.cluster.local", .A⟩ kubeShortTimeout)
        ∧ (queryFuel env cfgTunnel (fuel + 1) [] ⟨nm "kubernetes", .A⟩ t
            none).calls.head?
          = some (.kube ⟨nm "kubernetes.default.svc.cluster.local", .A⟩
              kubeShortTimeout)
        ∧ (queryFuel env cfgTunnel (fuel + 1) [] ⟨nm "foo.svc", .A⟩ t
            none).calls.head?
          = some (.kube ⟨nm "foo.svc.svc.cluster.local", .A⟩ kubeShortTimeout)) := by
  refine ⟨clusterSafe_iff, ?_, ?_⟩
  · intro env t fuel
    rfl
  · intro env t fuel
    exact ⟨noLoopKubeQuery_calls_head env cfgTunnel ⟨nm "google.com", .A⟩ t
        (nm "google.com"),
      noLoopKubeQuery_calls_head env cfgTunnel ⟨nm "kubernetes", .A⟩ t
        (nm "kubernetes"),
      noLoopKubeQuery_calls_head env cfgTunnel ⟨nm "foo.svc", .A⟩ t
        (nm "foo.svc")⟩

/-- C7 counterexample: the claim's general rule fails on the two-label
name `foo.svc`: it does not end in `.local` and its final label is `svc`, yet
the completion does not merely append `cluster.local` — the two-label rule
fires first and produces `foo.svc.svc.cluster.local`. -/
theorem C7_kube_completion_counterexample :
    kubeRewrite (nm "bar") (nm "foo.svc") = nm "foo.svc.svc.cluster.local"
    ∧ kubeRewrite (nm "bar") (nm "foo.svc") ≠ nm "foo.svc" ++ nm ".cluster.local"
    ∧ (nm ".local").isSuffixOf (nm "foo.svc") = false
    ∧ (splitOnDot (nm "foo.svc")).getLastD [] = nm "svc" := by
  decide

/-- C7 amended: with namespace `bar` the completion maps `foo`,
`foo.bar` and `foo.bar.svc` to `foo.bar.svc.cluster.local` and leaves
`foo.bar.local` unchanged; and for every name not ending in `.local` that has
at least three labels and whose final label is `svc`, it appends
`.cluster.local` (one- and two-label names are instead completed by the
namespace and two-label rules). -/
theorem C7_kube_completion_amended :
    kubeRewrite (nm "bar") (nm "foo") = nm "foo.bar.svc.cluster.local"
    ∧ kubeRewrite (nm "bar") (nm "foo.bar") = nm "foo.bar.svc.cluster.local"
    ∧ kubeRewrite (nm "bar") (nm "foo.bar.svc") = nm "foo.bar.svc.cluster.local"
    ∧ kubeRewrite (nm "bar") (nm "foo.bar.local") = nm "foo.bar.local"
    ∧ (∀ (nspace name : DName),
        (nm ".local").isSuffixOf name = false →
        3 ≤ (splitOnDot name).length →
        (splitOnDot name).getLastD [] = nm "svc" →
        kubeRewrite nspace name = name ++ nm ".cluster.local") := by
  refine ⟨by decide, by decide, by decide, by decide, ?_⟩
  intro nspace name hlocal h3 hlast
  have hne : splitOnDot name ≠ [] := splitOnChar_ne_nil '.' name
  have h1 : ¬ (splitOnDot name).length = 1 := by omega
  have h2 : ¬ (splitOnDot name).length = 2 := by omega
  unfold kubeRewrite
  rw [if_neg (by simp [hlocal])]
  simp only [splitOnDot] at h1 h2 hlast hne
  simp only [splitOnDot, if_neg h1, if_neg h2, hlast, if_pos rfl]
  rw [joinDots_append_single _ _ hne]
  rw [show splitOnChar '.' name = splitOnDot name from rfl, joinDots_splitOnDot]
  rw [show ('.' :: nm "cluster.local" : DName) = nm ".cluster.local" by decide]
  simp

/-- Witness for C7: the general rule of the amended claim applied to the
three-label name `a.b.svc`. -/
theorem C7_kube_completion_witness :
    kubeRewrite (nm "x") (nm "a.b.svc") = nm "a.b.svc" ++ nm ".cluster.local" :=
  C7_kube_completion_amended.2.2.2.2 (nm "x") (nm "a.b.svc")
    (by decide) (by decide) (by decide)

/-! ## Path lemmas for `queryFuel` (one per branch of `LocalResolver.query`) -/

theorem qf_sanity (env : Env) (cfg : Config) (fuel : Nat)
    (suffixes : List (List DName)) (q : Query) (t : Timeout) (rn : Option DName)
    (hsan : sanityCheckHit (rn.getD q.name) = true) :
    queryFuel env cfg (fuel + 1) suffixes q t rn =
      ⟨.error (.authoritativeDomainError "Sanity check"), suffixes, []⟩ := by
  simp [queryFuel, hsan]

theorem qf_probe (env : Env) (cfg : Config) (fuel : Nat)
    (suffixes : List (List DName)) (q : Query) (t : Timeout) (rn : Option DName)
    (hsan : sanityCheckHit (rn.getD q.name) = false)
    (hprobe : suffixProbeHit (splitOnDot q.name) = true) :
    queryFuel env cfg (fuel + 1) suffixes q t rn =
      ⟨.ok (gotIps (rn.getD q.name) ["127.0.0.1"]),
       considerSuffix suffixes (splitOnDot q.name).tail, []⟩ := by
  simp [queryFuel, hsan, hprobe]

theorem qf_strip (env : Env) (cfg : Config) (fuel : Nat)
    (suffixes : List (List DName)) (q : Query) (t : Timeout) (rn : Option DName)
    (hsan : sanityCheckHit (rn.getD q.name) = false)
    (hprobe : suffixProbeHit (splitOnDot q.name) = false)
    (hstrip : stripSearchSuffix suffixes (splitOnDot q.name) ≠ splitOnDot q.name) :
    queryFuel env cfg (fuel + 1) suffixes q t rn =
      (let inner := queryFuel env cfg fuel suffixes
          { q with name := joinDots (stripSearchSuffix suffixes (splitOnDot q.name)) }
          (Timeout.pair (.secs 1) (.secs 1)) (some q.name)
       match inner.result with
       | .ok _ => inner
       | .error _ =>
           ⟨env.fallback q t, inner.suffixes, inner.calls ++ [.fallback q t]⟩) := by
  simp only [queryFuel, hsan, Bool.false_eq_true, if_false, hprobe]
  rw [if_pos hstrip]

theorem qf_A_noloop_safe (env : Env) (cfg : Config) (fuel : Nat)
    (suffixes : List (List DName)) (q : Query) (t : Timeout) (rn : Option DName)
    (hsan : sanityCheckHit (rn.getD q.name) = false)
    (hprobe : suffixProbeHit (splitOnDot q.name) = false)
    (hstrip : stripSearchSuffix suffixes (splitOnDot q.name) = splitOnDot q.name)
    (hA : q.qtype = .A)
    (hnl : cfg.noloop = true)
    (hsafe : clusterSafe cfg.localNames q.name = true) :
    queryFuel env cfg (fuel + 1) suffixes q t rn =
      ⟨(noLoopKubeQuery env cfg q t (rn.getD q.name)).1, suffixes,
       (noLoopKubeQuery env cfg q t (rn.getD q.name)).2⟩ := by
  obtain ⟨qn, qt⟩ := q
  simp only at hA
  subst hA
  simp [queryFuel, hsan, hprobe, hstrip, hnl, hsafe]

theorem qf_A_noloop_guard_no (env : Env) (cfg : Config) (fuel : Nat)
    (suffixes : List (List DName)) (q : Query) (t : Timeout) (rn : Option DName)
    (hsan : sanityCheckHit (rn.getD q.name) = false)
    (hprobe : suffixProbeHit (splitOnDot q.name) = false)
    (hstrip : stripSearchSuffix suffixes (splitOnDot q.name) = splitOnDot q.name)
    (hA : q.qtype = .A)
    (hnl : cfg.noloop = true)
    (hsafe : clusterSafe cfg.localNames q.name = false) :
    queryFuel env cfg (fuel + 1) suffixes q t rn =
      ⟨env.fallback q t, suffixes, [.fallback q t]⟩ := by
  obtain ⟨qn, qt⟩ := q
  simp only at hA
  subst hA
  simp [queryFuel, hsan, hprobe, hstrip, hnl, hsafe]

theorem qf_A_plain (env : Env) (cfg : Config) (fuel : Nat)
    (suffixes : List (List DName)) (q : Query) (t : Timeout) (rn : Option DName)
    (hsan : sanityCheckHit (rn.getD q.name) = false)
    (hprobe : suffixProbeHit (splitOnDot q.name) = false)
    (hstrip : stripSearchSuffix suffixes (splitOnDot q.name) = splitOnDot q.name)
    (hA : q.qtype = .A)
    (hnl : cfg.noloop = false) :
    queryFuel env cfg (fuel + 1) suffixes q t rn =
      (match env.native q.name with
       | .ok ips => ⟨.ok (gotIps (rn.getD q.name) ips), suffixes, [.native q.name]⟩
       | .error msg => ⟨.error (.domainError msg), suffixes, [.native q.name]⟩) := by
  obtain ⟨qn, qt⟩ := q
  simp only at hA
  subst hA
  simp [queryFuel, hsan, hprobe, hstrip, hnl]

theorem qf_AAAA (env : Env) (cfg : Config) (fuel : Nat)
    (suffixes : List (List DName)) (q : Query) (t : Timeout) (rn : Option DName)
    (hsan : sanityCheckHit (rn.getD q.name) = false)
    (hprobe : suffixProbeHit (splitOnDot q.name) = false)
    (hstrip : stripSearchSuffix suffixes (splitOnDot q.name) = splitOnDot q.name)
    (hA : q.qtype = .AAAA) :
    queryFuel env cfg (fuel + 1) suffixes q t rn =
      queryFuel env cfg fuel suffixes { q with qtype := .A } t
        (some (rn.getD q.name)) := by
  obtain ⟨qn, qt⟩ := q
  simp only at hA
  subst hA
  simp [queryFuel, hsan, hprobe, hstrip]

theorem qf_other (env : Env) (cfg : Config) (fuel : Nat)
    (suffixes : List (List DName)) (q : Query) (t : Timeout) (rn : Option DName)
    (hsan : sanityCheckHit (rn.getD q.name) = false)
    (hprobe : suffixProbeHit (splitOnDot q.name) = false)
    (hstrip : stripSearchSuffix suffixes (splitOnDot q.name) = splitOnDot q.name)
    (hA : q.qtype = .other) :
    queryFuel env cfg (fuel + 1) suffixes q t rn =
      ⟨env.fallback q t, suffixes, [.fallback q t]⟩ := by
  obtain ⟨qn, qt⟩ := q
  simp only at hA
  subst hA
  simp [queryFuel, hsan, hprobe, hstrip]

/-- C5 counterexample: the label counts of the stored suffix list are not
*strictly* decreasing: learning `("a","b")` and then `("c","d")` through two
probe queries leaves two entries with equal label count side by side. -/
theorem C5_suffix_order_counterexample :
    (queryFuel envKubeOk cfgTunnel 2
        ((queryFuel envKubeOk cfgTunnel 2 [] ⟨nm "hellotelepresence1.a.b", .A⟩
            .unset none).suffixes)
        ⟨nm "hellotelepresence2.c.d", .A⟩ .unset none).suffixes
      = [[nm "a", nm "b"], [nm "c", nm "d"]]
    ∧ ¬ List.Pairwise (fun a b : List DName => b.length < a.length)
        [[nm "a", nm "b"], [nm "c", nm "d"]] := by
  refine ⟨by decide, ?_⟩
  intro h
  rcases List.pairwise_cons.1 h with ⟨h1, _⟩
  have h2 := h1 [nm "c", nm "d"] (List.mem_singleton.2 rfl)
  simp at h2

/-- C5 amended: after any sequence of learned suffixes the stored list is
sorted by non-increasing (not strictly decreasing) label count and has no
duplicates; considering an already-present suffix is a no-op; and a new
suffix is inserted after every stored suffix of equal or greater label count
and before every strictly shorter one, so equal-length suffixes stay in
arrival order. -/
theorem C5_suffix_order_amended :
    (∀ (arrivals : List (List DName)),
        (arrivals.foldl considerSuffix []).Pairwise
            (fun a b => b.length ≤ a.length)
          ∧ (arrivals.foldl considerSuffix []).Nodup)
    ∧ (∀ (l : List (List DName)) (s : List DName), s ∈ l →
        considerSuffix l s = l)
    ∧ (∀ (l : List (List DName)) (s : List DName), s ∉ l →
        considerSuffix l s =
          l.takeWhile (fun y => decide (s.length ≤ y.length)) ++
            s :: l.dropWhile (fun y => decide (s.length ≤ y.length))) := by
  refine ⟨?_, considerSuffix_of_mem, ?_⟩
  · intro arrivals
    exact foldl_considerSuffix_invariant arrivals []
      ⟨List.Pairwise.nil, List.nodup_nil⟩
  · intro l s hs
    simp [considerSuffix, hs, insort_suffixKey_split]

/-- Witness for C5: re-considering a known suffix is a no-op, and a
new equal-length suffix is appended after the existing one. -/
theorem C5_suffix_order_witness :
    considerSuffix [[nm "a"]] [nm "a"] = [[nm "a"]]
    ∧ considerSuffix [[nm "a", nm "b"]] [nm "c", nm "d"]
        = [[nm "a", nm "b"], [nm "c", nm "d"]] := by
  refine ⟨C5_suffix_order_amended.2.1 _ _ (by decide), ?_⟩
  rw [C5_suffix_order_amended.2.2 [[nm "a", nm "b"]] [nm "c", nm "d"] (by decide)]
  decide

/-- C3 counterexample: the incoming real name is *not* preserved through a
nested suffix-strip recursion.  With learned suffixes `("a","b")` and `("b")`,
the query `x.b.a.b` is stripped to `x.b` (real name `x.b.a.b`), which is
stripped again to `x`; the second recursion passes its own query name `x.b` as
real name, so the eventual successful answer is returned under `x.b`, not
under the original real name `x.b.a.b`. -/
theorem C3_strip_realname_counterexample :
    (queryFuel envKubeOk cfgTunnel 4 [[nm "a", nm "b"], [nm "b"]]
        ⟨nm "x.b.a.b", .A⟩ .unset none).result
      = .ok [⟨nm "x.b", .A, "10.0.0.1"⟩]
    ∧ nm "x.b" ≠ nm "x.b.a.b" := by
  decide

/-- C3 amended: when suffix stripping changes the name (and neither the
sanity check nor the probe fires), the engine re-resolves the stripped name as
a fresh query with timeout pair `(1, 1)`, passing the current query's
unstripped name — not the incoming real name — as the real name for the
response, and if that recursive resolution fails for any reason it asks the
fallback resolver with the original, unstripped query and the caller's
timeout. -/
theorem C3_strip_recursion_amended (env : Env) (cfg : Config) (fuel : Nat)
    (suffixes : List (List DName)) (q : Query) (t : Timeout) (rn : Option DName)
    (hsan : sanityCheckHit (rn.getD q.name) = false)
    (hprobe : suffixProbeHit (splitOnDot q.name) = false)
    (hstrip : stripSearchSuffix suffixes (splitOnDot q.name) ≠ splitOnDot q.name) :
    queryFuel env cfg (fuel + 1) suffixes q t rn =
      (let inner := queryFuel env cfg fuel suffixes
          { q with name := joinDots (stripSearchSuffix suffixes (splitOnDot q.name)) }
          (Timeout.pair (.secs 1) (.secs 1)) (some q.name)
       match inner.result with
       | .ok _ => inner
       | .error _ =>
           ⟨env.fallback q t, inner.suffixes, inner.calls ++ [.fallback q t]⟩) :=
  qf_strip env cfg fuel suffixes q t rn hsan hprobe hstrip

/-- Witness for C3: a stripped query whose recursive resolution fails
(dead cluster resolver, fallback that also fails) falls back to the fallback
resolver with the original, unstripped query. -/
theorem C3_strip_recursion_witness :
    queryFuel envAllFail cfgTunnel 2 [[nm "corp", nm "example"]]
        ⟨nm "service1.corp.example", .A⟩ .unset none =
      ⟨.error (.domainError "fallback dead"), [[nm "corp", nm "example"]],
       [.kube ⟨nm "service1.default.svc.cluster.local", .A⟩ kubeShortTimeout,
        .fallback ⟨nm "service1", .A⟩ (Timeout.pair (.secs 1) (.secs 1)),
        .fallback ⟨nm "service1.corp.example", .A⟩ .unset]⟩ := by
  rw [C3_strip_recursion_amended envAllFail cfgTunnel 1 [[nm "corp", nm "example"]]
    ⟨nm "service1.corp.example", .A⟩ .unset none (by decide) (by decide) (by decide)]
  decide

/-- C2 counterexample: a successfully returned answer can carry an
internally rewritten name instead of the real name.  With learned suffix
`("corp","example")` and a dead cluster resolver, the query
`service1.corp.example` is stripped to `service1`; the inner Kube query fails
and the inner fallback call answers for `service1`, and that answer is
returned to the caller unrenamed — under `service1`, not under the real name
`service1.corp.example`. -/
theorem C2_realname_counterexample :
    (queryFuel envKubeDown cfgTunnel 3 [[nm "corp", nm "example"]]
        ⟨nm "service1.corp.example", .A⟩ .unset none).result
      = .ok [⟨nm "service1", .A, "1.2.3.4"⟩]
    ∧ nm "service1" ≠ nm "service1.corp.example" := by
  decide

/-- C2 amended: when no suffix stripping can occur (no learned suffixes)
and the fallback resolver returns records under the name it is queried with,
every record of a successfully returned answer set carries the query's real
(originally asked) name — across the probe answer, the cluster-resolver path
(whose answers are renamed), the AAAA→A rewrite, the native path, and the
fallback path.  (With stripping, fallback answers keep the stripped name, as
the counterexample shows.) -/
theorem C2_realname_amended (fuel : Nat) : ∀ (env : Env) (cfg : Config)
    (q : Query) (t : Timeout) (rn : Option DName) (rs : List RR),
    rn.getD q.name = q.name →
    (∀ (q' : Query) (t' : Timeout) (rs' : List RR),
        env.fallback q' t' = .ok rs' → ∀ r ∈ rs', r.name = q'.name) →
    (queryFuel env cfg fuel [] q t rn).result = .ok rs →
    ∀ r ∈ rs, r.name = q.name := by
  induction fuel with
  | zero =>
    intro env cfg q t rn rs hrn hfb hout
    simp [queryFuel] at hout
  | succ n ih =>
    intro env cfg q t rn rs hrn hfb hout
    cases hsan : sanityCheckHit (rn.getD q.name) with
    | true =>
      rw [qf_sanity env cfg n [] q t rn hsan] at hout
      simp at hout
    | false =>
      cases hprobe : suffixProbeHit (splitOnDot q.name) with
      | true =>
        rw [qf_probe env cfg n [] q t rn hsan hprobe] at hout
        simp only [Except.ok.injEq] at hout
        subst hout
        intro r hr
        simp [gotIps] at hr
        rw [hr, hrn]
      | false =>
        have hstrip : stripSearchSuffix [] (splitOnDot q.name) = splitOnDot q.name :=
          rfl
        cases hqt : q.qtype with
        | A =>
          cases hnl : cfg.noloop with
          | false =>
            rw [qf_A_plain env cfg n [] q t rn hsan hprobe hstrip hqt hnl] at hout
            cases hn : env.native q.name with
            | ok ips =>
              rw [hn] at hout
              simp only [Except.ok.injEq] at hout
              subst hout
              intro r hr
              simp [gotIps] at hr
              obtain ⟨ip, _, hrip⟩ := hr
              rw [← hrip, hrn]
            | error msg =>
              rw [hn] at hout
              simp at hout
          | true =>
            cases hsafe : clusterSafe cfg.localNames q.name with
            | false =>
              rw [qf_A_noloop_guard_no env cfg n [] q t rn hsan hprobe hstrip hqt
                hnl hsafe] at hout
              exact fun r hr => hfb q t rs hout r hr
            | true =>
              rw [qf_A_noloop_safe env cfg n [] q t rn hsan hprobe hstrip hqt
                hnl hsafe] at hout
              unfold noLoopKubeQuery at hout
              cases hk : env.kube { q with name := kubeRewrite cfg.nspace q.name }
                  kubeShortTimeout with
              | ok rs0 =>
                simp only [hk, Except.ok.injEq] at hout
                subst hout
                intro r hr
                simp at hr
                obtain ⟨a, _, hra⟩ := hr
                rw [← hra, hrn]
              | error e =>
                simp only [hk] at hout
                exact fun r hr => hfb q t rs hout r hr
        | AAAA =>
          rw [qf_AAAA env cfg n [] q t rn hsan hprobe hstrip hqt] at hout
          have h := ih env cfg { q with qtype := .A } t (some (rn.getD q.name)) rs
            (by simp [hrn]) hfb hout
          simpa using h
        | other =>
          rw [qf_other env cfg n [] q t rn hsan hprobe hstrip hqt] at hout
          exact fun r hr => hfb q t rs hout r hr

/-- Witness for C2: an AAAA query for `web.app` in tunnel mode with a
well-behaved fallback: the answer is returned under the queried name. -/
theorem C2_realname_witness :
    (queryFuel envKubeDown cfgTunnel 3 [] ⟨nm "web.app", .AAAA⟩ .unset
        none).result = .ok [⟨nm "web.app", .A, "1.2.3.4"⟩]
    ∧ ∀ r ∈ [(⟨nm "web.app", .A, "1.2.3.4"⟩ : RR)], r.name = nm "web.app" := by
  constructor
  · decide
  · exact C2_realname_amended 3 envKubeDown cfgTunnel ⟨nm "web.app", .AAAA⟩
      .unset none [⟨nm "web.app", .A, "1.2.3.4"⟩] (by decide)
      (by intro q' t' rs' h r hr
          simp [envKubeDown] at h
          rw [← h] at hr
          simp at hr
          rw [hr])
      (by decide)

theorem qf_realname_getD (env : Env) (cfg : Config) (fuel : Nat)
    (suffixes : List (List DName)) (q : Query) (t : Timeout) (rn : Option DName) :
    queryFuel env cfg fuel suffixes q t (some (rn.getD q.name)) =
      queryFuel env cfg fuel suffixes q t rn := by
  cases fuel <;> rfl

theorem qf_A_fuel_indep (env : Env) (cfg : Config) (f g : Nat)
    (suffixes : List (List DName)) (q : Query) (t : Timeout) (rn : Option DName)
    (hstrip : stripSearchSuffix suffixes (splitOnDot q.name) = splitOnDot q.name)
    (hA : q.qtype = .A) :
    queryFuel env cfg (f + 1) suffixes q t rn =
      queryFuel env cfg (g + 1) suffixes q t rn := by
  cases hsan : sanityCheckHit (rn.getD q.name) with
  | true =>
    rw [qf_sanity env cfg f suffixes q t rn hsan,
      qf_sanity env cfg g suffixes q t rn hsan]
  | false =>
    cases hprobe : suffixProbeHit (splitOnDot q.name) with
    | true =>
      rw [qf_probe env cfg f suffixes q t rn hsan hprobe,
        qf_probe env cfg g suffixes q t rn hsan hprobe]
    | false =>
      cases hnl : cfg.noloop with
      | true =>
        cases hsafe : clusterSafe cfg.localNames q.name with
        | true =>
          rw [qf_A_noloop_safe env cfg f suffixes q t rn hsan hprobe hstrip hA
              hnl hsafe,
            qf_A_noloop_safe env cfg g suffixes q t rn hsan hprobe hstrip hA
              hnl hsafe]
        | false =>
          rw [qf_A_noloop_guard_no env cfg f suffixes q t rn hsan hprobe hstrip hA
              hnl hsafe,
            qf_A_noloop_guard_no env cfg g suffixes q t rn hsan hprobe hstrip hA
              hnl hsafe]
      | false =>
        rw [qf_A_plain env cfg f suffixes q t rn hsan hprobe hstrip hA hnl,
          qf_A_plain env cfg g suffixes q t rn hsan hprobe hstrip hA hnl]

/-- C6 counterexample: the claim fails as stated.  The AAAA-to-A rewrite
happens only after the suffix-strip pass, and when the strip recursion fails
the errback asks the fallback resolver with the original, still-AAAA query.
With learned suffix `("b")`, a dead cluster resolver and a type-sensitive
fallback, the AAAA query for `a.b` is answered with an AAAA record `::1`,
while the equivalent A query fails — so an AAAA query can yield an AAAA
record, and its result can differ from the A query's. -/
theorem C6_aaaa_rewrite_counterexample :
    (queryFuel envTypeSensitive cfgTunnel 4 [[nm "b"]] ⟨nm "a.b", .AAAA⟩
        .unset none).result
      = .ok [⟨nm "a.b", .AAAA, "::1"⟩]
    ∧ (⟨nm "a.b", .AAAA, "::1"⟩ : RR).rtype = .AAAA
    ∧ (queryFuel envTypeSensitive cfgTunnel 4 [[nm "b"]] ⟨nm "a.b", .A⟩
        .unset none).result
      = .error (.domainError "no A answer") := by
  decide

/-- C6 amended: for a name unaffected by suffix stripping, and upstream
resolvers that never return AAAA records for A-type queries, an AAAA query
yields exactly the output the equivalent A query yields (the query is
rewritten in place to type A and re-dispatched through the same entry point),
and a successful answer never contains an AAAA record.  The restriction to
unstripped names is essential: the counterexample above shows the rewrite is
bypassed when a strip recursion fails. -/
theorem C6_aaaa_rewrite (env : Env) (cfg : Config) (fuel : Nat)
    (suffixes : List (List DName)) (t : Timeout) (rn : Option DName) (x : DName)
    (hstrip : stripSearchSuffix suffixes (splitOnDot x) = splitOnDot x)
    (hkube : ∀ (q' : Query) (t' : Timeout) (rs' : List RR), q'.qtype = .A →
        env.kube q' t' = .ok rs' → ∀ r ∈ rs', r.rtype ≠ .AAAA)
    (hfb : ∀ (q' : Query) (t' : Timeout) (rs' : List RR), q'.qtype = .A →
        env.fallback q' t' = .ok rs' → ∀ r ∈ rs', r.rtype ≠ .AAAA) :
    queryFuel env cfg (fuel + 2) suffixes ⟨x, .AAAA⟩ t rn =
      queryFuel env cfg (fuel + 2) suffixes ⟨x, .A⟩ t rn
    ∧ (∀ rs, (queryFuel env cfg (fuel + 2) suffixes ⟨x, .AAAA⟩ t rn).result
          = .ok rs → ∀ r ∈ rs, r.rtype ≠ .AAAA) := by
  have heq : queryFuel env cfg (fuel + 2) suffixes ⟨x, .AAAA⟩ t rn =
      queryFuel env cfg (fuel + 2) suffixes ⟨x, .A⟩ t rn := by
    cases hsan : sanityCheckHit (rn.getD x) with
    | true =>
      rw [qf_sanity env cfg (fuel + 1) suffixes ⟨x, .AAAA⟩ t rn hsan,
        qf_sanity env cfg (fuel + 1) suffixes ⟨x, .A⟩ t rn hsan]
    | false =>
      cases hprobe : suffixProbeHit (splitOnDot x) with
      | true =>
        rw [qf_probe env cfg (fuel + 1) suffixes ⟨x, .AAAA⟩ t rn hsan hprobe,
          qf_probe env cfg (fuel + 1) suffixes ⟨x, .A⟩ t rn hsan hprobe]
      | false =>
        rw [qf_AAAA env cfg (fuel + 1) suffixes ⟨x, .AAAA⟩ t rn hsan hprobe
          hstrip rfl]
        show queryFuel env cfg (fuel + 1) suffixes ⟨x, .A⟩ t
            (some (rn.getD x)) = _
        rw [show (some (rn.getD x)) =
            (some (rn.getD ({ name := x, qtype := QType.A : Query }).name))
          from rfl]
        rw [qf_realname_getD env cfg (fuel + 1) suffixes ⟨x, .A⟩ t rn]
        exact qf_A_fuel_indep env cfg fuel (fuel + 1) suffixes ⟨x, .A⟩ t rn
          hstrip rfl
  refine ⟨heq, ?_⟩
  intro rs hout
  rw [heq] at hout
  cases hsan : sanityCheckHit (rn.getD x) with
  | true =>
    rw [qf_sanity env cfg (fuel + 1) suffixes ⟨x, .A⟩ t rn hsan] at hout
    simp at hout
  | false =>
    cases hprobe : suffixProbeHit (splitOnDot x) with
    | true =>
      rw [qf_probe env cfg (fuel + 1) suffixes ⟨x, .A⟩ t rn hsan hprobe] at hout
      simp only [Except.ok.injEq] at hout
      subst hout
      intro r hr
      simp [gotIps] at hr
      simp [hr]
    | false =>
      cases hnl : cfg.noloop with
      | false =>
        rw [qf_A_plain env cfg (fuel + 1) suffixes ⟨x, .A⟩ t rn hsan hprobe
          hstrip rfl hnl] at hout
        cases hn : env.native x with
        | ok ips =>
          simp only [hn, Except.ok.injEq] at hout
          subst hout
          intro r hr
          simp [gotIps] at hr
          obtain ⟨ip, _, hrip⟩ := hr
          rw [← hrip]
          simp
        | error msg =>
          simp only [hn] at hout
          exact absurd hout (by simp)
      | true =>
        cases hsafe : clusterSafe cfg.localNames x with
        | false =>
          rw [qf_A_noloop_guard_no env cfg (fuel + 1) suffixes ⟨x, .A⟩ t rn hsan
            hprobe hstrip rfl hnl hsafe] at hout
          exact hfb ⟨x, .A⟩ t rs rfl hout
        | true =>
          rw [qf_A_noloop_safe env cfg (fuel + 1) suffixes ⟨x, .A⟩ t rn hsan
            hprobe hstrip rfl hnl hsafe] at hout
          unfold noLoopKubeQuery at hout
          cases hk : env.kube { name := kubeRewrite cfg.nspace x, qtype := QType.A }
              kubeShortTimeout with
          | ok rs0 =>
            simp only [hk, Except.ok.injEq] at hout
            subst hout
            intro r hr
            simp at hr
            obtain ⟨a, ha, hra⟩ := hr
            rw [← hra]
            exact hkube _ kubeShortTimeout rs0 rfl hk a ha
          | error e =>
            simp only [hk] at hout
            exact hfb ⟨x, .A⟩ t rs rfl hout

/-- Witness for C6: the AAAA query for `web.app` in tunnel mode produces
exactly the A-query output, and the concrete answer contains no AAAA record. -/
theorem C6_aaaa_rewrite_witness :
    queryFuel envKubeDown cfgTunnel 4 [] ⟨nm "web.app", .AAAA⟩ .unset none =
      queryFuel envKubeDown cfgTunnel 4 [] ⟨nm "web.app", .A⟩ .unset none := by
  refine (C6_aaaa_rewrite envKubeDown cfgTunnel 2 [] .unset none (nm "web.app")
    rfl ?_ ?_).1
  · intro q' t' rs' hA' h
    simp [envKubeDown] at h
  · intro q' t' rs' hA' h r hr
    simp [envKubeDown] at h
    rw [← h] at hr
    simp at hr
    simp [hr, hA']
